import Mathlib

/-!
Verification development for the quarterly-report Budget Resolution and
Reallocation Engine (`webapp/report_generator.py` of the Quartalsreport
repository).  The Python helper functions and the spreadsheet formulas the
generator emits into the workbook are embedded shallowly as Lean
definitions over exact rationals (`ℚ`); the theorems below settle the
specification's claims about them.  Excel's `N(x)` coercion of non-numeric
cells to `0` is reflected by taking the numeric cell contents as `ℚ`
parameters, and Excel's floating-point arithmetic is idealised as exact
rational arithmetic.
-/

namespace QReport

/-- The `Differenz` cell (column I) formula emitted for every timesheet row,
`=IF(H<0,MAX(0,MIN(F,-H)),0)`, where `F` is the row's booked hours and `H`
the user-editable `Bonus-Anpassung` adjustment (see
`build_quarterly_report`, both the monthly and the quarterly table emit the
same formula): the hours this row transfers away. -/
def transferredCell (hours adjustment : ℚ) : ℚ :=
  if adjustment < 0 then max 0 (min hours (-adjustment)) else 0

/-- The `Umsatz` (revenue) cell formula (column M) emitted for every row of
the monthly tables, and identically (with shifted column letters) for the
quarterly table:
`=IF($B$2="-",0,IF(C="Pauschale",IF(OR(R=0,N(D)=0),0,MAX(0,MIN(R*((N(F)+N(K))/N(D)),R-R*(N(E)/N(D))))),L*(N(F)+N(K))))`.
`role` is the sheet's `$B$2` position dropdown, `billing` the
`Abrechnungsart` of column C, `budgetTotal` the looked-up total budget
(column R), `quotaHours` the Soll hours (column D), `hours` the row's own
hours (column F), `received` the hours received from other employees
(column K), `istCum` the cumulative actual hours shown in column E and
`rate` the looked-up hourly rate (column L). -/
def revenueCell (role billing : String)
    (budgetTotal quotaHours hours received istCum rate : ℚ) : ℚ :=
  if role = "-" then 0
  else if billing = "Pauschale" then
    if budgetTotal = 0 ∨ quotaHours = 0 then 0
    else
      max 0 (min (budgetTotal * ((hours + received) / quotaHours))
        (budgetTotal - budgetTotal * (istCum / quotaHours)))
  else rate * (hours + received)

/-- The `Möglicher Umsatz` (possible revenue) cell formula (column N): the
same as `revenueCell` but without the remaining-budget cap for the
`Pauschale` branch. -/
def possibleRevenueCell (role billing : String)
    (budgetTotal quotaHours hours received istCum rate : ℚ) : ℚ :=
  if role = "-" then 0
  else if billing = "Pauschale" then
    if budgetTotal = 0 ∨ quotaHours = 0 then 0
    else budgetTotal * ((hours + received) / quotaHours)
  else rate * (hours + received)

/-- The `Entgangener Umsatz` (lost revenue) cell formula (column O),
`=N-M`: possible revenue minus revenue. -/
def lostRevenueCell (role billing : String)
    (budgetTotal quotaHours hours received istCum rate : ℚ) : ℚ :=
  possibleRevenueCell role billing budgetTotal quotaHours hours received istCum rate -
    revenueCell role billing budgetTotal quotaHours hours received istCum rate

/-- One row of an employee sheet's monthly table, as used by the
reallocation graph: the sheet it lives on (`owner`), its
project/milestone/month key, the row's booked `hours` (column F), the
user-editable `adjustment` (column H) and the `Zuordnen an` target
employee chosen from the dropdown (column J), `none` while unset. -/
structure SheetRow where
  owner : String
  proj : String
  ms : String
  month : Nat
  hours : ℚ
  adjustment : ℚ
  target : Option String
deriving DecidableEq

/-- The (project, milestone, month) key under which rows of different
employees are matched by the second pass of `build_quarterly_report`. -/
def SheetRow.key (r : SheetRow) : String × String × Nat := (r.proj, r.ms, r.month)

/-- The `Von anderen` cell (column K) formula injected in the second pass:
for employee `emp`'s row at key `k` it sums, over every other employee's
row at the same key, `IF(J=emp, I, 0)` — that row's transferred hours when
its target is `emp`. -/
def receivedFromOthersCell (rows : List SheetRow) (emp : String)
    (k : String × String × Nat) : ℚ :=
  (rows.map (fun r =>
    if r.owner ≠ emp ∧ r.key = k ∧ r.target = some emp then
      transferredCell r.hours r.adjustment
    else 0)).sum

/-- One raw time entry: employee, month index inside the quarter, booked
hours (a row of `df_quarter` restricted to one project+milestone). -/
structure TimeEntry where
  emp : String
  month : Nat
  hours : ℚ
deriving DecidableEq

/-- `future_hours_all_employees_map`: the hours logged by ALL employees in
months strictly after `m` for the fixed project+milestone. -/
def futureHoursAllEmployees (entries : List TimeEntry) (m : Nat) : ℚ :=
  ((entries.filter (fun e => decide (m < e.month))).map TimeEntry.hours).sum

/-- The backward-calculated actual hours shown in column E for a normal
(non-internal) monthly milestone:
`ist_display = csv_ist_total - xml_future_hours_all` (the budget master's
cumulative actual minus all employees' hours of strictly later months). -/
def istDisplayBack (csvIst : ℚ) (entries : List TimeEntry) (m : Nat) : ℚ :=
  csvIst - futureHoursAllEmployees entries m

/-- Hours logged by all employees in month `m` on the fixed
project+milestone. -/
def monthTotalHours (entries : List TimeEntry) (m : Nat) : ℚ :=
  ((entries.filter (fun e => decide (e.month = m))).map TimeEntry.hours).sum

/-- The `MONTHLY_BUDGETS` table of `report_generator.py`: fixed monthly
hour quotas for named internal (0000-project) milestones. -/
def MONTHLY_BUDGETS : List (String × ℚ) :=
  [("Einarbeitung neuer Mitarbeiter (max. 8h/Monat pro MA)", 8),
   ("Angebote-Ausschreibungen-Kalkulationen (max. 8h/Monat pro MA)", 8),
   ("Erstellung Vorlagen (übergreifend) (max. 8h/Monat pro MA)", 8)]

/-- Python's `ms_name in MONTHLY_BUDGETS` / `MONTHLY_BUDGETS[ms_name]`. -/
def monthlyBudgetLookup (name : String) : Option ℚ :=
  (MONTHLY_BUDGETS.find? (fun p => p.1 == name)).map Prod.snd

/-- Soll, displayed Ist, percentage and bonus-candidate flag of one
monthly-table row of `build_quarterly_report` (monthly branch of the row
loop).  `isSpecial` is `is_bonus_project` for the row's project,
`nameMonthBudget` abstracts `extract_budget_from_name` when it returns a
`monat` quota, `csvSoll`/`csvIstTotal` come from the merged budget-master
data and `futureAllHours` is `future_hours_all_employees_map` for the key. -/
structure MonthlyRowResult where
  soll : ℚ
  istDisplay : ℚ
  pct : ℚ
  bonusCandidate : Bool
deriving DecidableEq

/-- The monthly branch of the per-row computation in
`build_quarterly_report` (Soll/Ist selection, percentage, bonus
candidacy). -/
def monthlyRowCalc (isSpecial : Bool) (msName : String) (nameMonthBudget : Option ℚ)
    (csvSoll csvIstTotal futureAllHours hoursValue : ℚ) : MonthlyRowResult :=
  let sollIst : ℚ × ℚ :=
    if isSpecial then
      match monthlyBudgetLookup msName with
      | some b => (b, hoursValue)
      | none =>
        match nameMonthBudget with
        | some b => (b, hoursValue)
        | none => (csvSoll, hoursValue)
    else (csvSoll, csvIstTotal - futureAllHours)
  if 0 < sollIst.1 then
    ⟨sollIst.1, sollIst.2, sollIst.2 / sollIst.1 * 100,
      decide (sollIst.2 / sollIst.1 * 100 ≤ 100)⟩
  else ⟨sollIst.1, sollIst.2, 0, true⟩

/-- `if bonus_candidate: bonus_hours += hours_value`: the contribution of
one row to the bonus-eligible hour pool. -/
def bonusEligibleHours (res : MonthlyRowResult) (hoursValue : ℚ) : ℚ :=
  if res.bonusCandidate then hoursValue else 0

/-- Sum of the emitted `Umsatz` cells of all entries booked on one LumpSum
(`Pauschale`) budget record in a single month, with every reallocation at
its default (`Von anderen` = 0): each entry shows the common backward
calculated cumulative actual `istCum` in column E and its own hours in
column F. -/
def monthLumpRevenue (role : String) (budgetTotal quotaHours istCum rate : ℚ)
    (monthHours : List ℚ) : ℚ :=
  (monthHours.map
    (fun F => revenueCell role "Pauschale" budgetTotal quotaHours F 0 istCum rate)).sum

/-- Total hours of a quarter, given for each month the list of per-entry
hours of all employees on the fixed project+milestone. -/
def quarterHours (months : List (List ℚ)) : ℚ := (months.map List.sum).sum

/-- Aggregate revenue over the life of the budget for one LumpSum budget
record with no reallocations: month `i`'s column E shows
`csvIst - (hours of all strictly later months)` exactly as
`build_quarterly_report` back-calculates it. -/
def totalLumpRevenue (role : String) (budgetTotal quotaHours csvIst rate : ℚ) :
    List (List ℚ) → ℚ
  | [] => 0
  | m :: rest =>
      monthLumpRevenue role budgetTotal quotaHours (csvIst - quarterHours rest) rate m +
        totalLumpRevenue role budgetTotal quotaHours csvIst rate rest

/-- Three employees, each logging 1 hour on the same LumpSum milestone in
the same month, each reallocating their hour to the next employee in a
cycle (adjustment −1, targets forming A→B→C→A). -/
def cycleRows : List SheetRow :=
  [⟨"A", "P", "M", 0, 1, -1, some "B"⟩,
   ⟨"B", "P", "M", 0, 1, -1, some "C"⟩,
   ⟨"C", "P", "M", 0, 1, -1, some "A"⟩]

/-- The distribution used to refute the claim that back-calculated monthly
actuals sum to the cumulative total: one employee logs 1 hour in each of
the two months of the quarter (cumulative actual 2). -/
def splitEntries : List TimeEntry := [⟨"A", 0, 1⟩, ⟨"A", 1, 1⟩]


/-- Python `str.strip()`: drop surrounding whitespace (implemented over
the character list so that it reduces definitionally). -/
def pyStrip (s : String) : String :=
  String.mk (((s.toList.dropWhile Char.isWhitespace).reverse.dropWhile
    Char.isWhitespace).reverse)

/-- `norm_ms`: removes the bullet glyphs `\u2022` and `●`, strips leading
dashes and whitespace (`^[-\s]+`), then strips surrounding whitespace. -/
def normMs (s : String) : String :=
  let s1 := String.mk (s.toList.filter (fun c => !(c == '•' || c == '●')))
  let s2 := String.mk (s1.toList.dropWhile (fun c => c == '-' || c.isWhitespace))
  pyStrip s2

/-- Python `str.split()` with no arguments: the non-empty tokens between
whitespace runs. -/
def pySplitWsAux : List Char → List Char → List String
  | [], acc => if acc.isEmpty then [] else [String.mk acc.reverse]
  | c :: cs, acc =>
    if c.isWhitespace then
      if acc.isEmpty then pySplitWsAux cs []
      else String.mk acc.reverse :: pySplitWsAux cs []
    else pySplitWsAux cs (c :: acc)

def pySplitWs (s : String) : List String := pySplitWsAux s.toList []

/-- `_proj_keys_for_lookup` (identical to `_project_keys` of
`load_csv_budget_data`): the stripped full project string plus its leading
whitespace-separated token when different. -/
def projKeysForLookup (name : String) : List String :=
  let base := pyStrip name
  if base = "" then []
  else
    let first := pyStrip (match pySplitWs base with
      | [] => base
      | t :: _ => t)
    if first ≠ "" ∧ first ≠ base then [base, first] else [base]

/-- The budget payload stored in `budget_lookup` for one
(project-variant, milestone) key.  Of the `budget_data` dict only the
record identity (its `_LookupId`) and the billing type matter to the
claims; the remaining numeric fields are carried by the revenue model
above. -/
structure BudgetData where
  lookupId : Nat
  billing : String
deriving DecidableEq

/-- `candidate in budget_lookup` / `budget_lookup[candidate]`. -/
def lookupBudget (bl : List ((String × String) × BudgetData))
    (k : String × String) : Option BudgetData :=
  (bl.find? (fun p => p.1 == k)).map Prod.snd

/-- `milestone_parent_map.get((key, ms_norm))`; the value list holds the
distinct elements of the parent set. -/
def lookupParents (pm : List ((String × String) × List String))
    (k : String × String) : Option (List String) :=
  (pm.find? (fun p => p.1 == k)).map Prod.snd

/-- `_resolve_budget_data`: per project variant it tries the direct
(variant, milestone) key and, when the milestone's parent set has exactly
one element, additionally the (variant, parent) key; the first candidate
present in `budget_lookup` wins, otherwise `None`. -/
def resolveBudgetData (bl : List ((String × String) × BudgetData))
    (pm : List ((String × String) × List String))
    (projValue msValue : String) : Option BudgetData :=
  if projValue = "" then none
  else
    let msn := normMs msValue
    if msn = "" then none
    else
      ((projKeysForLookup projValue).flatMap (fun k =>
        (k, msn) :: (match lookupParents pm (k, msn) with
          | some [p] => [(k, p)]
          | _ => []))).findSome? (lookupBudget bl)

/-- `lookup_id_map.get(candidate)` with Python truthiness: id 0 counts as
absent. -/
def lookupIdOf (lm : List ((String × String) × Nat))
    (k : String × String) : Option Nat :=
  match (lm.find? (fun p => p.1 == k)).map Prod.snd with
  | some i => if i = 0 then none else some i
  | none => none

/-- Lexicographic code-point comparison of strings (Python's `<=` on
`str`), implemented over the character lists so that it reduces. -/
def strLeChars : List Char → List Char → Bool
  | [], _ => true
  | _ :: _, [] => false
  | a :: as, b :: bs =>
    if a.toNat < b.toNat then true
    else if b.toNat < a.toNat then false
    else strLeChars as bs

def strLe (a b : String) : Bool := strLeChars a.toList b.toList

/-- `sorted(parents)[0]`: insertion sort by the lexicographic string
order, then the head. -/
def insertStr (x : String) : List String → List String
  | [] => [x]
  | y :: ys => if strLe x y then x :: y :: ys else y :: insertStr x ys

def sortStr (l : List String) : List String := l.foldr insertStr []

def sortedHead (ps : List String) : String := (sortStr ps).headI

/-- `_determine_lookup_ids`: the (primary, fallback) lookup ids used when
emitting the rate/billing/budget formulas.  The fallback is taken from the
first project variant with a non-empty parent set, using
`sorted(parents)[0]` — regardless of how many parents the set has. -/
def determineLookupIds (lm : List ((String × String) × Nat))
    (pm : List ((String × String) × List String))
    (projValue msValue : String) : Option Nat × Option Nat :=
  if projValue = "" ∨ msValue = "" then (none, none)
  else
    let msn := normMs msValue
    let variants := projKeysForLookup projValue
    match variants.findSome? (fun k => lookupIdOf lm (k, msn)) with
    | some i => (some i, none)
    | none =>
      match variants.findSome? (fun k =>
        match lookupParents pm (k, msn) with
        | some ps => if ps.isEmpty then none else some (sortedHead ps)
        | none => none) with
      | none => (none, none)
      | some p =>
        if p = "" then (none, none)
        else (none, variants.findSome? (fun k => lookupIdOf lm (k, p)))

/-- Parent map of the C3 counterexample: the sub-milestone `sub` of
project `P` appears under two distinct parents. -/
def ambParents : List ((String × String) × List String) :=
  [(("P", "sub"), ["Alpha", "Beta"])]

/-- Lookup ids of the two parents in the C3 counterexample. -/
def ambIds : List ((String × String) × Nat) :=
  [(("P", "Alpha"), 7), (("P", "Beta"), 9)]

/-- Budget records of the two parents in the C3 counterexample. -/
def ambBudgets : List ((String × String) × BudgetData) :=
  [(("P", "Alpha"), ⟨7, "Pauschale"⟩), (("P", "Beta"), ⟨9, "Nachweis"⟩)]

/-- Parent map of the C3 witness: `sub` has exactly one parent. -/
def oneParentMap : List ((String × String) × List String) :=
  [(("P", "sub"), ["Alpha"])]

/-- Budget records of the C3 witness. -/
def oneParentBudgets : List ((String × String) × BudgetData) :=
  [(("P", "Alpha"), ⟨7, "Pauschale"⟩)]

/-- Lookup ids of the C3 witness. -/
def oneParentIds : List ((String × String) × Nat) := [(("P", "Alpha"), 7)]

/-- One raw `cell` child of a time-entry `row` element: its `name`
attribute (possibly absent) and its stripped text. -/
abbrev XmlCell := Option String × String

/-- `"k" in entry` for the dict built from the row's cells. -/
def hasCellKey (cells : List XmlCell) (key : String) : Bool :=
  cells.any (fun c => c.1 == some key)

/-- `entry[k]`: the dict comprehension keeps the LAST cell of a given
name. -/
def cellValue (cells : List XmlCell) (key : String) : Option String :=
  (cells.reverse.find? (fun c => c.1 == some key)).map Prod.snd

/-- The row filter of `load_xml_times`:
`entry and "staff_name" in entry and entry["staff_name"] and
"work_package_name" in entry and "date" in entry` (rows with no cells are
skipped before the dict is built, so the emptiness test covers both). -/
def rowQualifies (cells : List XmlCell) : Bool :=
  !cells.isEmpty && hasCellKey cells "staff_name" &&
    !((cellValue cells "staff_name").getD "" == "") &&
    hasCellKey cells "work_package_name" && hasCellKey cells "date"

/-- `load_xml_times` row collection: keep the qualifying rows and raise
`ValueError("XML enthält keine Daten.")` when none qualify. -/
def loadXmlTimes (rows : List (List XmlCell)) :
    Except String (List (List XmlCell)) :=
  let kept := rows.filter rowQualifies
  if kept.isEmpty then Except.error "XML enthält keine Daten."
  else Except.ok kept

/-- The C8 counterexample row: a staff name is present and non-empty, the
work-package and date cells exist but hold empty text. -/
def emptyWpRow : List XmlCell :=
  [(some "staff_name", "A"), (some "work_package_name", ""), (some "date", "")]

/-- The value of a Python `float`, with the IEEE special values as their
own constructors; finite values are idealised as exact rationals. -/
inductive PyFloat where
  | val : ℚ → PyFloat
  | nan : PyFloat
  | inf : PyFloat
  | ninf : PyFloat
deriving DecidableEq

/-- Decimal digits to a natural number. -/
def digitsToNat (ds : List Char) : Nat :=
  ds.foldl (fun a c => a * 10 + (c.toNat - '0'.toNat)) 0

/-- The rational value of `intPart.fracPart`. -/
def pyMantissa (intPart fracPart : List Char) : ℚ :=
  (digitsToNat intPart : ℚ) + (digitsToNat fracPart : ℚ) / (10 : ℚ) ^ fracPart.length

/-- Optional exponent suffix of a Python float literal. -/
def parseExp (sign mant : ℚ) (r : List Char) : Option PyFloat :=
  match r with
  | [] => some (PyFloat.val (sign * mant))
  | 'e' :: r3 =>
    let esignRest : ℤ × List Char :=
      match r3 with
      | '+' :: r4 => (1, r4)
      | '-' :: r4 => (-1, r4)
      | r4 => (1, r4)
    let ed := esignRest.2.takeWhile Char.isDigit
    let r5 := esignRest.2.dropWhile Char.isDigit
    if ed = [] ∨ r5 ≠ [] then none
    else some (PyFloat.val (sign * mant * (10 : ℚ) ^ (esignRest.1 * (digitsToNat ed : ℤ))))
  | _ => none

/-- Model of CPython `float(str)` on an already-stripped string: an
optional sign followed by either the special tokens `nan`, `inf`,
`infinity` (ASCII case-insensitive) or a decimal literal
`digits[.digits][e[sign]digits]` with at least one mantissa digit;
anything else raises `ValueError`, modelled as `none`.  Finite values are
kept exact (no float rounding); underscore separators are not modelled. -/
def pyFloatOfString (s : String) : Option PyFloat :=
  let cs := s.toList.map Char.toLower
  let signRest : ℚ × List Char :=
    match cs with
    | '+' :: r => (1, r)
    | '-' :: r => (-1, r)
    | r => (1, r)
  let sign := signRest.1
  let rest := signRest.2
  if rest = ['n', 'a', 'n'] then some PyFloat.nan
  else if rest = ['i', 'n', 'f'] ∨ rest = ['i', 'n', 'f', 'i', 'n', 'i', 't', 'y'] then
    some (if sign = 1 then PyFloat.inf else PyFloat.ninf)
  else
    let intPart := rest.takeWhile Char.isDigit
    let r1 := rest.dropWhile Char.isDigit
    match r1 with
    | '.' :: r =>
      if intPart = [] ∧ r.takeWhile Char.isDigit = [] then none
      else parseExp sign (pyMantissa intPart (r.takeWhile Char.isDigit))
        (r.dropWhile Char.isDigit)
    | _ =>
      if intPart = [] then none
      else parseExp sign (pyMantissa intPart []) r1

/-- `parse_hours` of `load_xml_times`: a missing value (`pd.isna`) gives
0.0; otherwise `float(str(x).strip())`, with any `ValueError` recovered as
0.0. -/
def parseHours (cell : Option String) : PyFloat :=
  match cell with
  | none => PyFloat.val 0
  | some x =>
    match pyFloatOfString (pyStrip x) with
    | some v => v
    | none => PyFloat.val 0

/-- The header row written by `_create_project_budget_sheet` to the
`Projekt-Budget-Übersicht` sheet (columns A through M). -/
def budgetSheetHeaders : List String :=
  ["Projekt", "Obermeilenstein", "Abrechnungsart", "Sollstunden Budget (h)",
   "Status", "Gesamtbudget (€)", "Abgerechnet (€)", "Verfügbar (€)",
   "Stundensatz SV (€/h)", "Stundensatz CAD (€/h)", "Stundensatz ADM (€/h)",
   "Bemerkung", "_LookupId"]

/-- Letter of a 1-based column index (valid for indices 1–26). -/
def columnLetter (i : Nat) : String :=
  match i with
  | 0 => ""
  | Nat.succ n => String.singleton (Char.ofNat ('A'.toNat + n))

/-- Shape of the emitted `INDEX(...,MATCH(id, range, 0))` rate formulas:
which budget-sheet column is read for each selectable role, and which
column the lookup id is matched against. -/
structure RateLookupFormula where
  svColumn : String
  cadColumn : String
  admColumn : String
  defaultColumn : String
  matchColumn : String
deriving DecidableEq

/-- The rate formula emitted for monthly-table rows: INDEX over `$I`/`$J`/
`$K` (default `$I`) with `MATCH(id, $M:$M, 0)`. -/
def monthlyRateFormula : RateLookupFormula := ⟨"I", "J", "K", "I", "M"⟩

/-- The rate formula emitted for quarterly-table rows: INDEX over `$H`/
`$I`/`$J` (default `$H`) with `MATCH(id, $L:$L, 0)`. -/
def quarterlyRateFormula : RateLookupFormula := ⟨"H", "I", "J", "H", "L"⟩

/-- Shape of the emitted billing-type lookup formula
`IFERROR(INDEX(.$C:$C, MATCH(id, $L:$L, 0)), "")` (identical for the
monthly and the quarterly tables). -/
structure BillingLookupFormula where
  indexColumn : String
  matchColumn : String
deriving DecidableEq

/-- The billing-type lookup emitted into column C of both tables. -/
def billingTypeFormula : BillingLookupFormula := ⟨"C", "L"⟩

/-- The MATCH range of `_build_lookup_expr` (budget-total and fallback
lookups): `MATCH(id, .$L:$L, 0)`. -/
def buildLookupExprMatchColumn : String := "L"

end QReport

namespace QReport

/-- C2: the transferred-hours cell equals `max 0 (min rowHours (-adjustment))`
for every adjustment the user may enter; in particular it is never negative
and never exceeds the hours actually logged on the row. -/
theorem transferred_eq_clamp (hours adjustment : ℚ) (hpos : 0 ≤ hours) :
    transferredCell hours adjustment = max 0 (min hours (-adjustment)) ∧
    0 ≤ transferredCell hours adjustment ∧
    transferredCell hours adjustment ≤ hours := by
  unfold transferredCell
  by_cases hadj : adjustment < 0
  · rw [if_pos hadj]
    exact ⟨rfl, le_max_left _ _, max_le hpos (min_le_left _ _)⟩
  · rw [if_neg hadj]
    have h1 : -adjustment ≤ 0 := neg_nonpos.mpr (not_lt.mp hadj)
    have h2 : min hours (-adjustment) = -adjustment := min_eq_right (h1.trans hpos)
    have h3 : max 0 (min hours (-adjustment)) = 0 := by
      rw [h2]; exact max_eq_left h1
    exact ⟨h3.symm, le_refl 0, hpos⟩

/-- Witness for C2 at the spec's §8 scenario (12 logged hours,
adjustment −5). -/
theorem transferred_eq_clamp_witness :
    (0:ℚ) ≤ 12 ∧
    (transferredCell 12 (-5) = max 0 (min 12 (-(-5))) ∧
      0 ≤ transferredCell 12 (-5) ∧ transferredCell 12 (-5) ≤ 12) :=
  ⟨by norm_num, transferred_eq_clamp 12 (-5) (by norm_num)⟩

/-- C5: the revenue cell follows the billing model: for `Pauschale`
(LumpSum) it is the proportional share of the budget for
`(hours + received) / quotaHours`, clamped between 0 and the budget
remaining after the cumulative actual hours; for `Nachweis` (Hourly) it is
`rate * (hours + received)` with no cap, and the possible-revenue cell
equals the revenue cell. -/
theorem revenue_follows_billing_model (role : String) (R D F K E L : ℚ)
    (hrole : role ≠ "-") (hR : R ≠ 0) (hD : D ≠ 0) :
    revenueCell role "Pauschale" R D F K E L =
      max 0 (min (R * ((F + K) / D)) (R - R * (E / D))) ∧
    revenueCell role "Nachweis" R D F K E L = L * (F + K) ∧
    possibleRevenueCell role "Nachweis" R D F K E L =
      revenueCell role "Nachweis" R D F K E L := by
  have hguard : ¬(R = 0 ∨ D = 0) := by push_neg; exact ⟨hR, hD⟩
  have hnb : ¬(("Nachweis" : String) = "Pauschale") := by decide
  refine ⟨?_, ?_, ?_⟩
  · rw [revenueCell, if_neg hrole, if_pos rfl, if_neg hguard]
  · rw [revenueCell, if_neg hrole, if_neg hnb]
  · rw [revenueCell, possibleRevenueCell, if_neg hrole, if_neg hrole,
      if_neg hnb, if_neg hnb]

/-- Witness for C5 at the spec's §8 scenario (budget €1000, 100 Soll
hours, employee logging 40 h, rate €10/h). -/
theorem revenue_follows_billing_model_witness :
    ("SV" : String) ≠ "-" ∧ (1000 : ℚ) ≠ 0 ∧ (100 : ℚ) ≠ 0 ∧
    (revenueCell "SV" "Pauschale" 1000 100 40 0 70 10 =
        max 0 (min (1000 * ((40 + 0) / 100)) (1000 - 1000 * (70 / 100))) ∧
      revenueCell "SV" "Nachweis" 1000 100 40 0 70 10 = 10 * (40 + 0) ∧
      possibleRevenueCell "SV" "Nachweis" 1000 100 40 0 70 10 =
        revenueCell "SV" "Nachweis" 1000 100 40 0 70 10) :=
  ⟨by decide, by norm_num, by norm_num,
    revenue_follows_billing_model "SV" 1000 100 40 0 70 10 (by decide)
      (by norm_num) (by norm_num)⟩

lemma futureHours_cons (e : TimeEntry) (tl : List TimeEntry) (m : Nat) :
    futureHoursAllEmployees (e :: tl) m =
      (if m < e.month then e.hours else 0) + futureHoursAllEmployees tl m := by
  rw [futureHoursAllEmployees, List.filter_cons]
  by_cases h : m < e.month
  · simp [h, futureHoursAllEmployees]
  · simp [h, futureHoursAllEmployees]

lemma monthTotal_cons (e : TimeEntry) (tl : List TimeEntry) (j : Nat) :
    monthTotalHours (e :: tl) j =
      (if e.month = j then e.hours else 0) + monthTotalHours tl j := by
  rw [monthTotalHours, List.filter_cons]
  by_cases h : e.month = j
  · simp [h, monthTotalHours]
  · simp [h, monthTotalHours]

lemma futureHours_eq_sum_Ico (entries : List TimeEntry) (n m : Nat)
    (hn : ∀ e ∈ entries, e.month < n) :
    futureHoursAllEmployees entries m =
      ∑ j in Finset.Ico (m + 1) n, monthTotalHours entries j := by
  induction entries with
  | nil => simp [futureHoursAllEmployees, monthTotalHours]
  | cons e tl ih =>
    have he : e.month < n := hn e (List.mem_cons_self e tl)
    have htl : ∀ x ∈ tl, x.month < n := fun x hx => hn x (List.mem_cons_of_mem e hx)
    rw [futureHours_cons]
    have hsum : ∀ j ∈ Finset.Ico (m + 1) n,
        monthTotalHours (e :: tl) j =
          (if e.month = j then e.hours else 0) + monthTotalHours tl j :=
      fun j _ => monthTotal_cons e tl j
    rw [Finset.sum_congr rfl hsum, Finset.sum_add_distrib, Finset.sum_ite_eq,
      ← ih htl]
    have hmem : e.month ∈ Finset.Ico (m + 1) n ↔ m < e.month := by
      rw [Finset.mem_Ico]
      omega
    by_cases h : m < e.month
    · rw [if_pos (hmem.mpr h), if_pos h]
    · rw [if_neg (fun hc => h (hmem.mp hc)), if_neg h]

/-- C1 (amended): for a fixed project+milestone the backward-calculated
actual of month `m` equals the budget master's cumulative total minus the
hours of all employees in strictly later months — hence it depends only
on the per-month all-employee totals, not on how hours are distributed
among employees — and for the final month of the quarter it equals the
cumulative actual itself. -/
theorem backcalc_monthly_actual (csvIst : ℚ) (entries : List TimeEntry) (n : Nat)
    (hn : ∀ e ∈ entries, e.month < n) :
    (∀ m, istDisplayBack csvIst entries m =
      csvIst - ∑ j in Finset.Ico (m + 1) n, monthTotalHours entries j) ∧
    (∀ m, n ≤ m + 1 → istDisplayBack csvIst entries m = csvIst) := by
  constructor
  · intro m
    rw [istDisplayBack, futureHours_eq_sum_Ico entries n m hn]
  · intro m hm
    rw [istDisplayBack, futureHours_eq_sum_Ico entries n m hn,
      Finset.Ico_eq_empty (by omega : ¬ m + 1 < n), Finset.sum_empty, sub_zero]

/-- Witness for C1 (amended) on the two-month split distribution. -/
theorem backcalc_monthly_actual_witness :
    (∀ e ∈ splitEntries, e.month < 2) ∧
    ((∀ m, istDisplayBack 2 splitEntries m =
        2 - ∑ j in Finset.Ico (m + 1) 2, monthTotalHours splitEntries j) ∧
      (∀ m, 2 ≤ m + 1 → istDisplayBack 2 splitEntries m = 2)) :=
  ⟨by decide, backcalc_monthly_actual 2 splitEntries 2 (by decide)⟩

/-- C1 counterexample: the claim that the back-calculated monthly actuals
sum to the cumulative actual fails: one employee logging 1 h in each of
the two months of a quarter with (consistent) cumulative actual 2 gets
back-calculated actuals 1 and 2, which sum to 3 ≠ 2. -/
theorem backcalc_sum_counterexample :
    (splitEntries.map TimeEntry.hours).sum = 2 ∧
    istDisplayBack 2 splitEntries 0 = 1 ∧
    istDisplayBack 2 splitEntries 1 = 2 ∧
    istDisplayBack 2 splitEntries 0 + istDisplayBack 2 splitEntries 1 ≠ 2 := by
  have h0 : istDisplayBack 2 splitEntries 0 = 1 := by
    norm_num [istDisplayBack, futureHoursAllEmployees, splitEntries]
  have h1 : istDisplayBack 2 splitEntries 1 = 2 := by
    norm_num [istDisplayBack, futureHoursAllEmployees, splitEntries]
  refine ⟨by norm_num [splitEntries], h0, h1, ?_⟩
  rw [h0, h1]
  norm_num

/-- C4: for an internal fixed-quota monthly milestone (a `MONTHLY_BUDGETS`
rule) on a 0000-project, the quota is the fixed rule value, the displayed
actual is only this employee's hours of this month (no backward
calculation), the percentage is `actual/quota*100` and the row's hours are
bonus-eligible iff that percentage is at most 100; in particular the 8
h/month rule with 10 logged hours yields quota 8, actual 10, percentage
125 and 0 bonus-eligible hours. -/
theorem internal_fixed_quota_monthly (msName : String) (q : ℚ) (nb : Option ℚ)
    (csvSoll csvIstTotal future hoursValue : ℚ)
    (hq : monthlyBudgetLookup msName = some q) (hqpos : 0 < q) :
    (monthlyRowCalc true msName nb csvSoll csvIstTotal future hoursValue).soll = q ∧
    (monthlyRowCalc true msName nb csvSoll csvIstTotal future hoursValue).istDisplay
      = hoursValue ∧
    (monthlyRowCalc true msName nb csvSoll csvIstTotal future hoursValue).pct
      = hoursValue / q * 100 ∧
    ((monthlyRowCalc true msName nb csvSoll csvIstTotal future hoursValue).bonusCandidate
        = true ↔ hoursValue / q * 100 ≤ 100) ∧
    (monthlyRowCalc true "Einarbeitung neuer Mitarbeiter (max. 8h/Monat pro MA)"
        none 0 0 0 10 = ⟨8, 10, 125, false⟩ ∧
      bonusEligibleHours
        (monthlyRowCalc true "Einarbeitung neuer Mitarbeiter (max. 8h/Monat pro MA)"
          none 0 0 0 10) 10 = 0) := by
  have hcalc : monthlyRowCalc true msName nb csvSoll csvIstTotal future hoursValue =
      ⟨q, hoursValue, hoursValue / q * 100, decide (hoursValue / q * 100 ≤ 100)⟩ := by
    simp only [monthlyRowCalc, hq, if_true]
    rw [if_pos hqpos]
  have hlk : monthlyBudgetLookup
      "Einarbeitung neuer Mitarbeiter (max. 8h/Monat pro MA)" = some 8 := rfl
  have hex : monthlyRowCalc true
      "Einarbeitung neuer Mitarbeiter (max. 8h/Monat pro MA)" none 0 0 0 10 =
      ⟨8, 10, 125, false⟩ := by
    simp only [monthlyRowCalc, hlk, if_true]
    rw [if_pos (by norm_num : (0:ℚ) < 8)]
    have hpct : (10 : ℚ) / 8 * 100 = 125 := by norm_num
    have hbc : decide ((10 : ℚ) / 8 * 100 ≤ 100) = false :=
      decide_eq_false (by norm_num)
    rw [MonthlyRowResult.mk.injEq]
    exact ⟨rfl, rfl, hpct, hbc⟩
  rw [hcalc]
  refine ⟨rfl, rfl, rfl, decide_eq_true_iff, hex, ?_⟩
  rw [hex, bonusEligibleHours]
  rfl

/-- Witness for C4 at the 8 h/month rule with 10 logged hours. -/
theorem internal_fixed_quota_monthly_witness :
    monthlyBudgetLookup "Einarbeitung neuer Mitarbeiter (max. 8h/Monat pro MA)"
        = some 8 ∧ (0 : ℚ) < 8 ∧
    ((monthlyRowCalc true "Einarbeitung neuer Mitarbeiter (max. 8h/Monat pro MA)"
        none 0 0 0 10).soll = 8 ∧
      (monthlyRowCalc true "Einarbeitung neuer Mitarbeiter (max. 8h/Monat pro MA)"
        none 0 0 0 10).istDisplay = 10 ∧
      (monthlyRowCalc true "Einarbeitung neuer Mitarbeiter (max. 8h/Monat pro MA)"
        none 0 0 0 10).pct = 10 / 8 * 100 ∧
      ((monthlyRowCalc true "Einarbeitung neuer Mitarbeiter (max. 8h/Monat pro MA)"
        none 0 0 0 10).bonusCandidate = true ↔ (10 : ℚ) / 8 * 100 ≤ 100) ∧
      (monthlyRowCalc true "Einarbeitung neuer Mitarbeiter (max. 8h/Monat pro MA)"
        none 0 0 0 10 = ⟨8, 10, 125, false⟩ ∧
        bonusEligibleHours
          (monthlyRowCalc true "Einarbeitung neuer Mitarbeiter (max. 8h/Monat pro MA)"
            none 0 0 0 10) 10 = 0)) :=
  ⟨rfl, by norm_num,
    internal_fixed_quota_monthly
      "Einarbeitung neuer Mitarbeiter (max. 8h/Monat pro MA)" 8 none 0 0 0 10
      rfl (by norm_num)⟩

lemma sum_map_mul_div (R D : ℚ) (l : List ℚ) :
    (l.map (fun F => R * (F / D))).sum = R * (l.sum / D) := by
  induction l with
  | nil => simp
  | cons a tl ih =>
    rw [List.map_cons, List.sum_cons, List.sum_cons, ih]
    ring

lemma revenueCell_pauschale_le_prop (role : String) (R D F E rate : ℚ)
    (hR : 0 ≤ R) (hD : 0 < D) (hF : 0 ≤ F) :
    revenueCell role "Pauschale" R D F 0 E rate ≤ R * (F / D) := by
  have hx : 0 ≤ R * (F / D) := mul_nonneg hR (div_nonneg hF hD.le)
  rw [revenueCell]
  by_cases hrole : role = "-"
  · rw [if_pos hrole]; exact hx
  · rw [if_neg hrole, if_pos rfl]
    by_cases hg : R = 0 ∨ D = 0
    · rw [if_pos hg]; exact hx
    · rw [if_neg hg, add_zero]
      exact max_le hx (min_le_left _ _)

lemma revenueCell_pauschale_le_cap (role : String) (R D F E rate : ℚ) :
    revenueCell role "Pauschale" R D F 0 E rate ≤ max 0 (R - R * (E / D)) := by
  rw [revenueCell]
  by_cases hrole : role = "-"
  · rw [if_pos hrole]; exact le_max_left _ _
  · rw [if_neg hrole, if_pos rfl]
    by_cases hg : R = 0 ∨ D = 0
    · rw [if_pos hg]; exact le_max_left _ _
    · rw [if_neg hg]
      exact max_le (le_max_left _ _) ((min_le_right _ _).trans (le_max_right _ _))

lemma monthLumpRevenue_le_prop (role : String) (R D E rate : ℚ) (m : List ℚ)
    (hR : 0 ≤ R) (hD : 0 < D) (hF : ∀ F ∈ m, 0 ≤ F) :
    monthLumpRevenue role R D E rate m ≤ R * (m.sum / D) := by
  rw [monthLumpRevenue, ← sum_map_mul_div]
  exact List.sum_le_sum
    (fun F hFm => revenueCell_pauschale_le_prop role R D F E rate hR hD (hF F hFm))

lemma monthLumpRevenue_nonpos (role : String) (R D E rate : ℚ) (m : List ℚ)
    (hcap : R - R * (E / D) < 0) :
    monthLumpRevenue role R D E rate m ≤ 0 := by
  rw [monthLumpRevenue]
  have hterm : ∀ F ∈ m, revenueCell role "Pauschale" R D F 0 E rate ≤ 0 :=
    fun F _ => (revenueCell_pauschale_le_cap role R D F E rate).trans
      (le_of_eq (max_eq_left hcap.le))
  calc (m.map (fun F => revenueCell role "Pauschale" R D F 0 E rate)).sum
      ≤ (m.map (fun _ => (0 : ℚ))).sum := List.sum_le_sum hterm
    _ = 0 := by simp

lemma quarterHours_cons (m : List ℚ) (rest : List (List ℚ)) :
    quarterHours (m :: rest) = m.sum + quarterHours rest := by
  rw [quarterHours, List.map_cons, List.sum_cons, quarterHours]

lemma totalLumpRevenue_le_remaining (role : String) (R D csvIst rate : ℚ)
    (hR : 0 ≤ R) (hD : 0 < D) :
    ∀ months : List (List ℚ), (∀ m ∈ months, ∀ F ∈ m, 0 ≤ F) →
      totalLumpRevenue role R D csvIst rate months ≤
        max 0 (R - R * ((csvIst - quarterHours months) / D)) := by
  intro months
  induction months with
  | nil =>
    intro _
    rw [totalLumpRevenue]
    exact le_max_left _ _
  | cons m rest ih =>
    intro hpos
    have hm : ∀ F ∈ m, 0 ≤ F := hpos m (List.mem_cons_self m rest)
    have hrest : ∀ x ∈ rest, ∀ F ∈ x, 0 ≤ F :=
      fun x hx => hpos x (List.mem_cons_of_mem m hx)
    rw [totalLumpRevenue]
    have hD' : D ≠ 0 := ne_of_gt hD
    have hsplit : R - R * ((csvIst - quarterHours (m :: rest)) / D)
        = (R - R * ((csvIst - quarterHours rest) / D)) + R * (m.sum / D) := by
      rw [quarterHours_cons]
      field_simp
      ring
    by_cases hcap : 0 ≤ R - R * ((csvIst - quarterHours rest) / D)
    · have h1 := monthLumpRevenue_le_prop role R D (csvIst - quarterHours rest) rate m hR hD hm
      have h2 := ih hrest
      rw [max_eq_right hcap] at h2
      refine (add_le_add h1 h2).trans ?_
      rw [hsplit]
      exact (le_of_eq (add_comm _ _)).trans (le_max_right _ _)
    · push_neg at hcap
      have h1 := monthLumpRevenue_nonpos role R D (csvIst - quarterHours rest) rate m hcap
      have h2 := ih hrest
      rw [max_eq_left hcap.le] at h2
      refine ((add_le_add h1 h2).trans (by norm_num)).trans (le_max_left _ _)

/-- C6 (amended): with every reallocation at its default (no transferred-in
hours) and a budget-master cumulative actual that accounts for at least
all logged hours, the revenue aggregated over all employees, entries and
months of the budget's life never exceeds the LumpSum record's budget
amount; and every entry's lost revenue (possible minus actual) is
nonnegative whenever its hour inputs are nonnegative. -/
theorem lump_sum_budget_bound (role : String) (R D csvIst rate : ℚ)
    (months : List (List ℚ)) (hR : 0 ≤ R) (hD : 0 < D)
    (hpos : ∀ m ∈ months, ∀ F ∈ m, 0 ≤ F)
    (hcsv : quarterHours months ≤ csvIst) :
    totalLumpRevenue role R D csvIst rate months ≤ R ∧
    (∀ billing F K E, 0 ≤ F → 0 ≤ K →
      0 ≤ lostRevenueCell role billing R D F K E rate) := by
  constructor
  · refine (totalLumpRevenue_le_remaining role R D csvIst rate hR hD months hpos).trans
      (max_le hR ?_)
    have h0 : 0 ≤ R * ((csvIst - quarterHours months) / D) :=
      mul_nonneg hR (div_nonneg (sub_nonneg.mpr hcsv) hD.le)
    linarith
  · intro billing F K E hF hK
    rw [lostRevenueCell, sub_nonneg, revenueCell, possibleRevenueCell]
    by_cases hrole : role = "-"
    · rw [if_pos hrole, if_pos hrole]
    · rw [if_neg hrole, if_neg hrole]
      by_cases hb : billing = "Pauschale"
      · rw [if_pos hb, if_pos hb]
        by_cases hg : R = 0 ∨ D = 0
        · rw [if_pos hg, if_pos hg]
        · rw [if_neg hg, if_neg hg]
          have hx : 0 ≤ R * ((F + K) / D) :=
            mul_nonneg hR (div_nonneg (by linarith) hD.le)
          exact max_le hx (min_le_left _ _)
      · rw [if_neg hb, if_neg hb]

/-- Witness for C6 (amended) at the spec's §8 scenario: budget €1000 over
100 Soll hours, employees logging 40 h and 30 h in the single month,
cumulative actual 70 h. -/
theorem lump_sum_budget_bound_witness :
    (0 : ℚ) ≤ 1000 ∧ (0 : ℚ) < 100 ∧
    (∀ m ∈ [[(40 : ℚ), 30]], ∀ F ∈ m, 0 ≤ F) ∧
    quarterHours [[(40 : ℚ), 30]] ≤ 70 ∧
    (totalLumpRevenue "SV" 1000 100 70 10 [[(40 : ℚ), 30]] ≤ 1000 ∧
      (∀ billing F K E, 0 ≤ F → 0 ≤ K →
        0 ≤ lostRevenueCell "SV" billing 1000 100 F K E 10)) :=
  ⟨by norm_num, by norm_num,
    by
      intro m hm F hF
      rw [List.mem_singleton] at hm
      subst hm
      rw [List.mem_cons, List.mem_singleton] at hF
      rcases hF with h | h <;> rw [h] <;> norm_num,
    by norm_num [quarterHours],
    lump_sum_budget_bound "SV" 1000 100 70 10 [[(40 : ℚ), 30]] (by norm_num)
      (by norm_num)
      (by
        intro m hm F hF
        rw [List.mem_singleton] at hm
        subst hm
        rw [List.mem_cons, List.mem_singleton] at hF
        rcases hF with h | h <;> rw [h] <;> norm_num)
      (by norm_num [quarterHours])⟩


lemma receivedFromOthers_cons (r : SheetRow) (tl : List SheetRow) (emp : String)
    (k : String × String × Nat) :
    receivedFromOthersCell (r :: tl) emp k =
      (if r.owner ≠ emp ∧ r.key = k ∧ r.target = some emp then
        transferredCell r.hours r.adjustment
      else 0) + receivedFromOthersCell tl emp k := by
  rw [receivedFromOthersCell, List.map_cons, List.sum_cons, receivedFromOthersCell]

lemma receivedFromOthers_append (l1 l2 : List SheetRow) (emp : String)
    (k : String × String × Nat) :
    receivedFromOthersCell (l1 ++ l2) emp k =
      receivedFromOthersCell l1 emp k + receivedFromOthersCell l2 emp k := by
  rw [receivedFromOthersCell, List.map_append, List.sum_append,
    receivedFromOthersCell, receivedFromOthersCell]

lemma receivedFromOthers_filter (rows : List SheetRow) (emp : String)
    (k : String × String × Nat) :
    receivedFromOthersCell rows emp k =
      ((rows.filter (fun r =>
          decide (r.owner ≠ emp ∧ r.key = k ∧ r.target = some emp))).map
        (fun r => transferredCell r.hours r.adjustment)).sum := by
  induction rows with
  | nil => rfl
  | cons r tl ih =>
    rw [receivedFromOthers_cons, ih, List.filter_cons]
    by_cases h : r.owner ≠ emp ∧ r.key = k ∧ r.target = some emp
    · rw [if_pos h, decide_eq_true h, if_pos rfl, List.map_cons, List.sum_cons]
    · rw [if_neg h, decide_eq_false h, if_neg Bool.false_ne_true, zero_add]

lemma transferredCell_one : transferredCell 1 (-1) = 1 := by
  rw [transferredCell, if_pos (by norm_num : (-1 : ℚ) < 0),
    (by norm_num : -(-1 : ℚ) = 1), min_self,
    max_eq_right (by norm_num : (0 : ℚ) ≤ 1)]

lemma revenueCell_cycle : revenueCell "SV" "Pauschale" 1000 5 1 1 3 0 = 400 := by
  rw [revenueCell, if_neg (by decide : ¬("SV" : String) = "-"), if_pos rfl,
    if_neg (by push_neg; constructor <;> norm_num)]
  rw [(by norm_num : (1000 : ℚ) * ((1 + 1) / 5) = 400),
    (by norm_num : (1000 : ℚ) - 1000 * (3 / 5) = 400), min_self,
    max_eq_right (by norm_num : (0 : ℚ) ≤ 400)]

/-- C6 counterexample: three employees each log 1 h on the same LumpSum
milestone (budget €1000, Soll 5 h) in the same month and each reallocates
its hour to the next employee in a cycle, so every row keeps its own hours
in column F and additionally receives 1 h in column K.  The budget
master's cumulative actual (3 h) accounts for all logged hours, yet the
aggregated revenue of the three consumers is €1200 > €1000, refuting the
claim that aggregated LumpSum revenue never exceeds the budget amount. -/
theorem lump_aggregate_counterexample :
    (cycleRows.map SheetRow.hours).sum = 3 ∧
    receivedFromOthersCell cycleRows "A" ("P", "M", 0) = 1 ∧
    receivedFromOthersCell cycleRows "B" ("P", "M", 0) = 1 ∧
    receivedFromOthersCell cycleRows "C" ("P", "M", 0) = 1 ∧
    revenueCell "SV" "Pauschale" 1000 5 1
        (receivedFromOthersCell cycleRows "A" ("P", "M", 0)) 3 0 +
      revenueCell "SV" "Pauschale" 1000 5 1
        (receivedFromOthersCell cycleRows "B" ("P", "M", 0)) 3 0 +
      revenueCell "SV" "Pauschale" 1000 5 1
        (receivedFromOthersCell cycleRows "C" ("P", "M", 0)) 3 0 = 1200 ∧
    (1000 : ℚ) < 1200 := by
  have hnil : ∀ e : String, receivedFromOthersCell [] e ("P", "M", 0) = 0 :=
    fun _ => rfl
  have hA : receivedFromOthersCell cycleRows "A" ("P", "M", 0) = 1 := by
    rw [cycleRows, receivedFromOthers_cons, receivedFromOthers_cons,
      receivedFromOthers_cons, if_neg (by decide), if_neg (by decide),
      if_pos (by decide), hnil]
    norm_num [transferredCell_one]
  have hB : receivedFromOthersCell cycleRows "B" ("P", "M", 0) = 1 := by
    rw [cycleRows, receivedFromOthers_cons, receivedFromOthers_cons,
      receivedFromOthers_cons, if_pos (by decide), if_neg (by decide),
      if_neg (by decide), hnil]
    norm_num [transferredCell_one]
  have hC : receivedFromOthersCell cycleRows "C" ("P", "M", 0) = 1 := by
    rw [cycleRows, receivedFromOthers_cons, receivedFromOthers_cons,
      receivedFromOthers_cons, if_neg (by decide), if_pos (by decide),
      if_neg (by decide), hnil]
    norm_num [transferredCell_one]
  refine ⟨by norm_num [cycleRows], hA, hB, hC, ?_, by norm_num⟩
  rw [hA, hB, hC, revenueCell_cycle]
  norm_num

/-- C7: employee `emp`'s `Von anderen` cell at key `k` equals the sum of
the transferred values of every other employee's row at the same key whose
target is `emp`; and adding one reallocation on a row whose target was
unset (choosing an adjustment and a target `T`) increases exactly `T`'s
cell at that row's key by the row's transferred hours and changes no other
employee's cell at any key (removing it is the same equation read
backwards). -/
theorem received_from_others_spec (pre post : List SheetRow) (r0 r1 : SheetRow)
    (adj2 : ℚ) (T : String) (hT : T ≠ r0.owner) (htar : r0.target = none)
    (hr1 : r1 = { r0 with adjustment := adj2, target := some T }) :
    (∀ rows emp k, receivedFromOthersCell rows emp k =
      ((rows.filter (fun r =>
          decide (r.owner ≠ emp ∧ r.key = k ∧ r.target = some emp))).map
        (fun r => transferredCell r.hours r.adjustment)).sum) ∧
    receivedFromOthersCell (pre ++ r1 :: post) T r0.key =
      receivedFromOthersCell (pre ++ r0 :: post) T r0.key +
        transferredCell r0.hours adj2 ∧
    (∀ emp k, ¬(emp = T ∧ k = r0.key) →
      receivedFromOthersCell (pre ++ r1 :: post) emp k =
        receivedFromOthersCell (pre ++ r0 :: post) emp k) := by
  have hkey : r1.key = r0.key := by subst hr1; rfl
  have hown : r1.owner = r0.owner := by rw [hr1]
  have htar1 : r1.target = some T := by rw [hr1]
  have hhours : r1.hours = r0.hours := by rw [hr1]
  have hadj : r1.adjustment = adj2 := by rw [hr1]
  refine ⟨receivedFromOthers_filter, ?_, ?_⟩
  · rw [receivedFromOthers_append, receivedFromOthers_append,
      receivedFromOthers_cons, receivedFromOthers_cons]
    have hc1 : r1.owner ≠ T ∧ r1.key = r0.key ∧ r1.target = some T :=
      ⟨by rw [hown]; exact fun h => hT h.symm, hkey, htar1⟩
    have hc0 : ¬(r0.owner ≠ T ∧ r0.key = r0.key ∧ r0.target = some T) := by
      rintro ⟨-, -, ht⟩
      rw [htar] at ht
      exact Option.noConfusion ht
    rw [if_pos hc1, if_neg hc0, hhours, hadj]
    ring
  · intro emp k hek
    rw [receivedFromOthers_append, receivedFromOthers_append,
      receivedFromOthers_cons, receivedFromOthers_cons]
    have hc0 : ¬(r0.owner ≠ emp ∧ r0.key = k ∧ r0.target = some emp) := by
      rintro ⟨-, -, ht⟩
      rw [htar] at ht
      exact Option.noConfusion ht
    have hc1 : ¬(r1.owner ≠ emp ∧ r1.key = k ∧ r1.target = some emp) := by
      rintro ⟨-, hk, ht⟩
      rw [htar1] at ht
      exact hek ⟨(Option.some.inj ht).symm, by rw [← hk, hkey]⟩
    rw [if_neg hc1, if_neg hc0]

/-- Witness for C7 at the spec's §8 scenario: employee A's 12 h row gets
adjustment −5 with target B, who also has a row at the same key. -/
theorem received_from_others_spec_witness :
    ("B" : String) ≠ (⟨"A", "P", "M", 0, 12, 0, none⟩ : SheetRow).owner ∧
    (⟨"A", "P", "M", 0, 12, 0, none⟩ : SheetRow).target = none ∧
    (⟨"A", "P", "M", 0, 12, -5, some "B"⟩ : SheetRow) =
      { (⟨"A", "P", "M", 0, 12, 0, none⟩ : SheetRow) with
        adjustment := -5, target := some "B" } ∧
    ((∀ rows emp k, receivedFromOthersCell rows emp k =
        ((rows.filter (fun r =>
            decide (r.owner ≠ emp ∧ r.key = k ∧ r.target = some emp))).map
          (fun r => transferredCell r.hours r.adjustment)).sum) ∧
      receivedFromOthersCell
          ([⟨"B", "P", "M", 0, 3, 0, none⟩] ++
            (⟨"A", "P", "M", 0, 12, -5, some "B"⟩ : SheetRow) :: []) "B"
          (⟨"A", "P", "M", 0, 12, 0, none⟩ : SheetRow).key =
        receivedFromOthersCell
            ([⟨"B", "P", "M", 0, 3, 0, none⟩] ++
              (⟨"A", "P", "M", 0, 12, 0, none⟩ : SheetRow) :: []) "B"
            (⟨"A", "P", "M", 0, 12, 0, none⟩ : SheetRow).key +
          transferredCell (⟨"A", "P", "M", 0, 12, 0, none⟩ : SheetRow).hours (-5) ∧
      (∀ emp k, ¬(emp = "B" ∧ k = (⟨"A", "P", "M", 0, 12, 0, none⟩ : SheetRow).key) →
        receivedFromOthersCell
            ([⟨"B", "P", "M", 0, 3, 0, none⟩] ++
              (⟨"A", "P", "M", 0, 12, -5, some "B"⟩ : SheetRow) :: []) emp k =
          receivedFromOthersCell
              ([⟨"B", "P", "M", 0, 3, 0, none⟩] ++
                (⟨"A", "P", "M", 0, 12, 0, none⟩ : SheetRow) :: []) emp k)) :=
  ⟨by decide, rfl, rfl,
    received_from_others_spec [⟨"B", "P", "M", 0, 3, 0, none⟩] []
      ⟨"A", "P", "M", 0, 12, 0, none⟩ ⟨"A", "P", "M", 0, 12, -5, some "B"⟩
      (-5) "B" (by decide) rfl rfl⟩



/-- C9: the budget-overview sheet stores the `_LookupId` values in column
M (the 13th header), and only the monthly rate formula matches the lookup
id against that column; the billing-type formulas of both tables, the
budget-total/`_build_lookup_expr` formulas and the quarterly rate formula
match the id against column L, which actually holds the `Bemerkung` text
(and the quarterly rate formula additionally reads its SV rate from
column H, which holds `Verfügbar (€)`, not from the rate column I). -/
theorem lookup_formula_column_mismatch :
    columnLetter (budgetSheetHeaders.indexOf "_LookupId" + 1) = "M" ∧
    monthlyRateFormula.matchColumn = "M" ∧
    billingTypeFormula.matchColumn = "L" ∧
    quarterlyRateFormula.matchColumn = "L" ∧
    buildLookupExprMatchColumn = "L" ∧
    ("L" : String) ≠ "M" ∧
    columnLetter (budgetSheetHeaders.indexOf "Bemerkung" + 1) = "L" ∧
    columnLetter (budgetSheetHeaders.indexOf "Stundensatz SV (€/h)" + 1) = "I" ∧
    quarterlyRateFormula.svColumn = "H" ∧
    columnLetter (budgetSheetHeaders.indexOf "Verfügbar (€)" + 1) = "H" := by
  refine ⟨by decide, rfl, rfl, rfl, rfl, by decide, by decide, by decide, rfl,
    by decide⟩

/-- C10 counterexample: a cell whose text is `"nan"` is parsed by
`float(...)` to NaN, not to 0.0. -/
theorem parse_hours_nan_counterexample :
    parseHours (some "nan") = PyFloat.nan ∧ PyFloat.nan ≠ PyFloat.val 0 := by
  exact ⟨rfl, fun h => PyFloat.noConfusion h⟩

/-- C10 (amended): parsing of the hours cell is total and a missing,
empty, or malformed value yields exactly 0.0 without an exception (the
row is retained); but text spelling a float special value, such as
`"nan"`, parses to that value, so NaN can be produced. -/
theorem parse_hours_total (s : String) (hmal : pyFloatOfString (pyStrip s) = none) :
    parseHours none = PyFloat.val 0 ∧
    parseHours (some "") = PyFloat.val 0 ∧
    parseHours (some s) = PyFloat.val 0 ∧
    parseHours (some "nan") = PyFloat.nan := by
  refine ⟨rfl, rfl, ?_, rfl⟩
  simp only [parseHours, hmal]

/-- Witness for C10 (amended) at the malformed cell text `"abc"`. -/
theorem parse_hours_total_witness :
    pyFloatOfString (pyStrip "abc") = none ∧
    (parseHours none = PyFloat.val 0 ∧
      parseHours (some "") = PyFloat.val 0 ∧
      parseHours (some "abc") = PyFloat.val 0 ∧
      parseHours (some "nan") = PyFloat.nan) :=
  ⟨rfl, parse_hours_total "abc" rfl⟩



lemma resolve_candidates_none (bl : List ((String × String) × BudgetData))
    (pm : List ((String × String) × List String)) (msn : String)
    (vs : List String)
    (hd : ∀ k ∈ vs, lookupBudget bl (k, msn) = none)
    (hp : ∀ k ∈ vs, ∀ ps, lookupParents pm (k, msn) = some ps → ps.length ≠ 1) :
    (vs.flatMap (fun k => (k, msn) :: (match lookupParents pm (k, msn) with
      | some [p] => [(k, p)]
      | _ => []))).findSome? (lookupBudget bl) = none := by
  induction vs with
  | nil => rfl
  | cons k vs ih =>
    have hk : lookupBudget bl (k, msn) = none := hd k (List.mem_cons_self k vs)
    have hinner : (match lookupParents pm (k, msn) with
        | some [p] => [(k, p)]
        | _ => ([] : List (String × String))) = [] := by
      rcases hps : lookupParents pm (k, msn) with _ | ps
      · rfl
      · match ps with
        | [] => rfl
        | [p] => exact absurd rfl (hp k (List.mem_cons_self k vs) [p] hps)
        | p :: q :: tl => rfl
    rw [List.flatMap_cons, hinner, List.singleton_append, List.findSome?_cons, hk]
    exact ih (fun x hx => hd x (List.mem_cons_of_mem k hx))
      (fun x hx ps hps => hp x (List.mem_cons_of_mem k hx) ps hps)

lemma resolve_candidates_single (bl : List ((String × String) × BudgetData))
    (pm : List ((String × String) × List String)) (msn p : String)
    (vs : List String)
    (hd : ∀ k ∈ vs, lookupBudget bl (k, msn) = none)
    (hp : ∀ k ∈ vs, lookupParents pm (k, msn) = some [p]) :
    (vs.flatMap (fun k => (k, msn) :: (match lookupParents pm (k, msn) with
      | some [p] => [(k, p)]
      | _ => []))).findSome? (lookupBudget bl) =
      vs.findSome? (fun k => lookupBudget bl (k, p)) := by
  induction vs with
  | nil => rfl
  | cons k vs ih =>
    have hk : lookupBudget bl (k, msn) = none := hd k (List.mem_cons_self k vs)
    have hps : lookupParents pm (k, msn) = some [p] := hp k (List.mem_cons_self k vs)
    rw [List.flatMap_cons, hps, List.findSome?_cons]
    simp only [List.cons_append, List.nil_append, List.findSome?_cons, hk]
    cases hkp : lookupBudget bl (k, p) with
    | some r => rfl
    | none =>
      exact ih (fun x hx => hd x (List.mem_cons_of_mem k hx))
        (fun x hx => hp x (List.mem_cons_of_mem k hx))

/-- C3 counterexample: the sub-milestone `sub` of project `P` has TWO
parents, so the claim requires resolution to yield Unknown and never a
guessed parent; `_resolve_budget_data` indeed yields `none`, but
`_determine_lookup_ids` emits the lookup id 7 of the alphabetically first
parent `Alpha` as the formula fallback — a guessed parent's budget
record. -/
theorem resolver_ambiguous_counterexample :
    lookupParents ambParents ("P", "sub") = some ["Alpha", "Beta"] ∧
    resolveBudgetData ambBudgets ambParents "P" "sub" = none ∧
    determineLookupIds ambIds ambParents "P" "sub" = (none, some 7) ∧
    lookupIdOf ambIds ("P", "Alpha") = some 7 ∧
    lookupBudget ambBudgets ("P", "Alpha") = some ⟨7, "Pauschale"⟩ := by
  exact ⟨by decide, by decide, by decide, by decide, by decide⟩

/-- C3 (amended): when no direct (variant, milestone) key is budgeted,
the value resolver `_resolve_budget_data` falls back to the parent only
when the parent set has exactly one element — with zero or two-or-more
parents it yields `none` — and with exactly one parent `p` it returns the
first budget record found under (variant, p); the formula-id resolver
`_determine_lookup_ids`, however, falls back to the alphabetically first
parent of any non-empty parent set, even an ambiguous one. -/
theorem resolve_parent_fallback (bl : List ((String × String) × BudgetData))
    (pm : List ((String × String) × List String))
    (lm : List ((String × String) × Nat)) (proj ms : String)
    (hdirect : ∀ k ∈ projKeysForLookup proj,
      lookupBudget bl (k, normMs ms) = none) :
    ((∀ k ∈ projKeysForLookup proj, ∀ ps,
        lookupParents pm (k, normMs ms) = some ps → ps.length ≠ 1) →
      resolveBudgetData bl pm proj ms = none) ∧
    (∀ p, normMs ms ≠ "" →
      (∀ k ∈ projKeysForLookup proj,
        lookupParents pm (k, normMs ms) = some [p]) →
      resolveBudgetData bl pm proj ms =
        (projKeysForLookup proj).findSome? (fun k => lookupBudget bl (k, p))) ∧
    (∀ ps, proj ≠ "" → ms ≠ "" →
      (∀ k ∈ projKeysForLookup proj, lookupIdOf lm (k, normMs ms) = none) →
      (∀ k ∈ projKeysForLookup proj,
        lookupParents pm (k, normMs ms) = some ps) →
      ps ≠ [] → sortedHead ps ≠ "" → projKeysForLookup proj ≠ [] →
      determineLookupIds lm pm proj ms =
        (none, (projKeysForLookup proj).findSome?
          (fun k => lookupIdOf lm (k, sortedHead ps)))) := by
  refine ⟨?_, ?_, ?_⟩
  · intro hp
    simp only [resolveBudgetData]
    by_cases hproj : proj = ""
    · rw [if_pos hproj]
    · rw [if_neg hproj]
      by_cases hmsn : normMs ms = ""
      · rw [if_pos hmsn]
      · rw [if_neg hmsn]
        exact resolve_candidates_none bl pm (normMs ms) (projKeysForLookup proj)
          hdirect hp
  · intro p hmsn hp
    simp only [resolveBudgetData]
    by_cases hproj : proj = ""
    · rw [if_pos hproj]
      have hempty : projKeysForLookup proj = [] := by rw [hproj]; rfl
      rw [hempty]
      rfl
    · rw [if_neg hproj, if_neg hmsn]
      exact resolve_candidates_single bl pm (normMs ms) p (projKeysForLookup proj)
        hdirect hp
  · intro ps hproj hms hid hp hps hsh hvs
    simp only [determineLookupIds]
    rw [if_neg (by push_neg; exact ⟨hproj, hms⟩)]
    have hprim : (projKeysForLookup proj).findSome?
        (fun k => lookupIdOf lm (k, normMs ms)) = none :=
      List.findSome?_eq_none_iff.mpr hid
    rw [hprim]
    obtain ⟨k0, vs, hv⟩ : ∃ k0 vs, projKeysForLookup proj = k0 :: vs := by
      cases hpk : projKeysForLookup proj with
      | nil => exact absurd hpk hvs
      | cons a b => exact ⟨a, b, rfl⟩
    have hk0 : lookupParents pm (k0, normMs ms) = some ps :=
      hp k0 (by rw [hv]; exact List.mem_cons_self k0 vs)
    have hne : ps.isEmpty = false := by
      cases ps with
      | nil => exact absurd rfl hps
      | cons a l => rfl
    have hparent : (projKeysForLookup proj).findSome? (fun k =>
        match lookupParents pm (k, normMs ms) with
        | some ps => if ps.isEmpty then none else some (sortedHead ps)
        | none => none) = some (sortedHead ps) := by
      rw [hv, List.findSome?_cons, hk0]
      simp [hne]
    rw [hparent]
    show (if sortedHead ps = "" then ((none : Option Nat), (none : Option Nat))
      else (none, List.findSome? (fun k => lookupIdOf lm (k, sortedHead ps))
        (projKeysForLookup proj))) =
      (none, List.findSome? (fun k => lookupIdOf lm (k, sortedHead ps))
        (projKeysForLookup proj))
    rw [if_neg hsh]


/-- Witness for C3 (amended) on a concrete one-parent map. -/
theorem resolve_parent_fallback_witness :
    (∀ k ∈ projKeysForLookup "P",
      lookupBudget oneParentBudgets (k, normMs "sub") = none) ∧
    (((∀ k ∈ projKeysForLookup "P", ∀ ps,
        lookupParents oneParentMap (k, normMs "sub") = some ps →
          ps.length ≠ 1) →
      resolveBudgetData oneParentBudgets oneParentMap "P" "sub" = none) ∧
    (∀ p, normMs "sub" ≠ "" →
      (∀ k ∈ projKeysForLookup "P",
        lookupParents oneParentMap (k, normMs "sub") = some [p]) →
      resolveBudgetData oneParentBudgets oneParentMap "P" "sub" =
        (projKeysForLookup "P").findSome?
          (fun k => lookupBudget oneParentBudgets (k, p))) ∧
    (∀ ps, ("P" : String) ≠ "" → ("sub" : String) ≠ "" →
      (∀ k ∈ projKeysForLookup "P",
        lookupIdOf oneParentIds (k, normMs "sub") = none) →
      (∀ k ∈ projKeysForLookup "P",
        lookupParents oneParentMap (k, normMs "sub") = some ps) →
      ps ≠ [] → sortedHead ps ≠ "" → projKeysForLookup "P" ≠ [] →
      determineLookupIds oneParentIds oneParentMap "P" "sub" =
        (none, (projKeysForLookup "P").findSome?
          (fun k => lookupIdOf oneParentIds (k, sortedHead ps))))) :=
  ⟨by decide,
    resolve_parent_fallback oneParentBudgets oneParentMap oneParentIds "P" "sub"
      (by decide)⟩



lemma cellValue_none_of_not_hasKey (cells : List XmlCell) (key : String)
    (h : hasCellKey cells key = false) : cellValue cells key = none := by
  rw [cellValue]
  have hfind : cells.reverse.find? (fun c => c.1 == some key) = none := by
    rw [List.find?_eq_none]
    intro c hc
    rw [hasCellKey, List.any_eq_false] at h
    exact h c (List.mem_reverse.mp hc)
  rw [hfind]
  rfl

/-- C8 counterexample: a row whose work-package and date cells are present
but EMPTY is nevertheless kept by `load_xml_times` (the code tests only
key presence for those two fields), so the claim that rows lacking a
non-empty work-package name or date are dropped is false. -/
theorem xml_filter_counterexample :
    cellValue emptyWpRow "work_package_name" = some "" ∧
    cellValue emptyWpRow "date" = some "" ∧
    rowQualifies emptyWpRow = true ∧
    loadXmlTimes [emptyWpRow] = Except.ok [emptyWpRow] := by
  refine ⟨by decide, by decide, by decide, ?_⟩
  rfl

/-- C8 (amended): a row is kept iff it has at least one cell, a present
and non-empty staff name, a work-package cell and a date cell (the
work-package and date texts may be empty — only the staff name must be
non-empty); and the loader raises the no-data error iff zero rows
qualify. -/
theorem xml_row_filter (rows : List (List XmlCell)) (cells : List XmlCell) :
    (rowQualifies cells = true ↔
      (cells ≠ [] ∧ (cellValue cells "staff_name").getD "" ≠ "" ∧
        hasCellKey cells "work_package_name" = true ∧
        hasCellKey cells "date" = true)) ∧
    (loadXmlTimes rows = Except.error "XML enthält keine Daten." ↔
      ∀ r ∈ rows, rowQualifies r = false) := by
  constructor
  · simp only [rowQualifies, Bool.and_eq_true, Bool.not_eq_true',
      List.isEmpty_eq_false, beq_eq_false_iff_ne, ne_eq]
    constructor
    · rintro ⟨⟨⟨⟨h1, -⟩, h3⟩, h4⟩, h5⟩
      exact ⟨h1, h3, h4, h5⟩
    · rintro ⟨h1, h3, h4, h5⟩
      refine ⟨⟨⟨⟨h1, ?_⟩, h3⟩, h4⟩, h5⟩
      by_contra hk
      have hk' : hasCellKey cells "staff_name" = false := by
        cases hq : hasCellKey cells "staff_name" with
        | false => rfl
        | true => exact absurd hq hk
      rw [cellValue_none_of_not_hasKey cells "staff_name" hk'] at h3
      exact h3 rfl
  · simp only [loadXmlTimes]
    by_cases hemp : (rows.filter rowQualifies).isEmpty = true
    · rw [if_pos hemp]
      constructor
      · intro _ r hr
        have hnil : rows.filter rowQualifies = [] := by
          rwa [List.isEmpty_iff] at hemp
        have hnq := List.filter_eq_nil_iff.mp hnil r hr
        cases hq : rowQualifies r with
        | false => rfl
        | true => exact absurd hq hnq
      · intro _
        rfl
    · rw [if_neg hemp]
      constructor
      · intro h
        exact Except.noConfusion h
      · intro hall
        exfalso
        apply hemp
        rw [List.isEmpty_iff]
        exact List.filter_eq_nil_iff.mpr
          (fun r hr => by rw [hall r hr]; exact Bool.false_ne_true)


end QReport
